import Mathlib

/-!
Verification of `selfdrive/car/fw_versions.py`: the firmware-version
discovery planner/orchestrator (`get_fw_versions`) and the fingerprint
matcher (`match_fw_to_car`), shallowly embedded in Lean.

Conventions of the embedding:
* Python `bytes` become `List Nat`; Python `dict` becomes an association
  list with insertion-order semantics (`dictInsert` overwrites an existing
  key in place and appends a fresh key at the end, exactly like a Python
  dict assignment; `dictUpdateAll` is `dict.update`).
* Python `None`-able sub-addresses become `Option Nat`.
* The transport collaborator `IsoTpParallelQuery(...).get_data(t)` (an
  external dependency, not part of this file's source) is a parameter of
  type `Transport` returning `Except`: `.error` models a raised exception,
  `.ok` the returned address → version mapping.
* The module-level globals consumed by the source (`FW_VERSIONS`,
  `get_attr_from_cars('FW_VERSIONS', ...)`) are external read-only data
  and become explicit table parameters.
* The orchestrator is instrumented with a trace: every transport
  invocation is recorded as a `Call` (group index, filtered address list,
  request/response byte sequences, timeout) and every successful merge is
  recorded in `merges`.  The instrumentation only records what the source
  already does; it never changes control flow.
-/

set_option autoImplicit false

namespace FwVersions

/-- Vendor/brand tag, e.g. `"toyota"`, `"honda"`, or the wildcard `"any"`. -/
abbrev Brand := String

/-- Vehicle model name (the candidate identity in the fingerprint table). -/
abbrev Model := String

/-- A bus address (`uint32` in the source, modelled as `Nat`). -/
abbrev Addr := Nat

/-- An optional sub-address byte (`None` in Python becomes `none`). -/
abbrev SubAddr := Option Nat

/-- An opaque firmware-version byte string, compared by exact equality. -/
abbrev Bytes := List Nat

/-- The `car.CarParams.Ecu` enum values used by the source (the capnp enum
has more members; the ones below include every member the source code
mentions plus representative non-essential ones). -/
inductive EcuType where
  | engine
  | eps
  | esp
  | fwdRadar
  | fwdCamera
  | vsa
  | electricBrakeBooster
  | transmission
  | srs
  | gateway
  | hud
  | combinationMeter
  | dsu
  | unknown
  deriving DecidableEq, Repr

/-- A fingerprint-table key `(ecu_type, addr, sub_addr)`, i.e. the tuples
iterated by `c.keys()` in `get_fw_versions` and `fws.items()` in
`match_fw_to_car`. -/
abbrev EcuKey := EcuType × Addr × SubAddr

/-- One model's fingerprint: `dict[(ecu, addr, subAddr)] = [versions]`. -/
abbrev Fingerprint := List (EcuKey × List Bytes)

/-- The match-side fingerprint table `FW_VERSIONS`: model → fingerprint. -/
abbrev FwTable := List (Model × Fingerprint)

/-- The discovery-side table returned by
`get_attr_from_cars('FW_VERSIONS', combine_brands=False)`:
brand → model → fingerprint. -/
abbrev BrandTable := List (Brand × FwTable)

/-- The `car.CarParams.CarFw` capnp message: `subAddress` is a plain
integer field whose capnp default value is `0`. -/
structure CarFw where
  ecu : EcuType
  fwVersion : Bytes
  address : Addr
  subAddress : Nat
  deriving DecidableEq, Repr

/-! ### Python dict model -/

section Dict

variable {κ : Type} {ν : Type} [DecidableEq κ]

/-- Python `d[k] = v`: overwrite the (unique) existing binding of `k` in
place when present, append a fresh binding at the end otherwise.  On
association lists whose keys are duplicate-free — the only dict values a
Python program can construct — this is exactly the Python dict
assignment. -/
def dictInsert : List (κ × ν) → κ → ν → List (κ × ν)
  | [], k, v => [(k, v)]
  | kv :: d, k, v => if kv.1 = k then (k, v) :: d else kv :: dictInsert d k v

/-- Python `d.get(k)` / `d[k]` lookup. -/
def dictGet : List (κ × ν) → κ → Option ν
  | [], _ => none
  | kv :: d, k => if kv.1 = k then some kv.2 else dictGet d k

/-- Python `d.update(m)`: insert every pair of `m`, in order. -/
def dictUpdateAll (d m : List (κ × ν)) : List (κ × ν) :=
  m.foldl (fun d kv => dictInsert d kv.1 kv.2) d

/-- The key list of a dict. -/
def dictKeys (d : List (κ × ν)) : List κ := d.map Prod.fst

theorem dictGet_dictInsert (d : List (κ × ν)) (k k' : κ) (v : ν) :
    dictGet (dictInsert d k v) k' = if k' = k then some v else dictGet d k' := by
  induction d with
  | nil =>
    simp only [dictInsert, dictGet]
    by_cases h : k' = k
    · simp [h]
    · have h2 : ¬ k = k' := fun hh => h hh.symm
      simp [h, h2]
  | cons kv d ih =>
    by_cases hk : kv.1 = k
    · simp only [dictInsert, if_pos hk, dictGet]
      by_cases h : k' = k
      · simp [h]
      · have h2 : ¬ k = k' := fun hh => h hh.symm
        have h3 : ¬ kv.1 = k' := fun hh => h2 (hk.symm.trans hh)
        simp [h, h2, h3]
    · simp only [dictInsert, if_neg hk, dictGet, ih]
      by_cases hkk : kv.1 = k'
      · have : ¬ k' = k := fun hh => hk (hkk.trans hh)
        simp [hkk, this]
      · simp [hkk]

theorem mem_dictKeys_dictInsert (d : List (κ × ν)) (k k' : κ) (v : ν) :
    k' ∈ dictKeys (dictInsert d k v) ↔ k' = k ∨ k' ∈ dictKeys d := by
  induction d with
  | nil => simp [dictInsert, dictKeys]
  | cons kv d ih =>
    by_cases hk : kv.1 = k
    · simp only [dictInsert, if_pos hk, dictKeys, List.map_cons, List.mem_cons]
      rw [hk]
      tauto
    · simp only [dictInsert, if_neg hk, dictKeys, List.map_cons,
        List.mem_cons] at *
      tauto

theorem dictKeys_dictInsert_nodup (d : List (κ × ν)) (k : κ) (v : ν)
    (h : (dictKeys d).Nodup) : (dictKeys (dictInsert d k v)).Nodup := by
  induction d with
  | nil => simp [dictInsert, dictKeys]
  | cons kv d ih =>
    simp only [dictKeys, List.map_cons, List.nodup_cons] at h
    by_cases hk : kv.1 = k
    · simp only [dictInsert, if_pos hk, dictKeys, List.map_cons,
        List.nodup_cons]
      exact ⟨hk ▸ h.1, h.2⟩
    · simp only [dictInsert, if_neg hk, dictKeys, List.map_cons,
        List.nodup_cons]
      refine ⟨?_, ih h.2⟩
      rw [show (dictInsert d k v).map Prod.fst = dictKeys (dictInsert d k v)
        from rfl]
      intro hmem
      rcases (mem_dictKeys_dictInsert d k kv.1 v).mp hmem with hEq | hmem'
      · exact hk hEq
      · exact h.1 hmem'

theorem dictKeys_dictUpdateAll_nodup (d m : List (κ × ν))
    (h : (dictKeys d).Nodup) : (dictKeys (dictUpdateAll d m)).Nodup := by
  induction m generalizing d with
  | nil => exact h
  | cons kv m ih =>
    exact ih _ (dictKeys_dictInsert_nodup d kv.1 kv.2 h)

/-- The value a single merge payload `m` records for key `k`: the *last*
pair of `m` with key `k` (mirroring how `dictUpdateAll` lets later pairs
of the same payload overwrite earlier ones), `none` when `m` does not
contain `k`. -/
def mergeVal (m : List (κ × ν)) (k : κ) : Option ν :=
  (m.reverse.find? (fun kv => decide (kv.1 = k))).map Prod.snd

theorem dictGet_dictUpdateAll (d m : List (κ × ν)) (k : κ) :
    dictGet (dictUpdateAll d m) k = (mergeVal m k).or (dictGet d k) := by
  induction m generalizing d with
  | nil =>
    rw [show dictUpdateAll d [] = d from rfl,
      show mergeVal ([] : List (κ × ν)) k = none from rfl, Option.none_or]
  | cons kv m ih =>
    have hstep : dictUpdateAll d (kv :: m)
        = dictUpdateAll (dictInsert d kv.1 kv.2) m := rfl
    rw [hstep, ih]
    have hrev : mergeVal (kv :: m) k
        = (mergeVal m k).or (if kv.1 = k then some kv.2 else none) := by
      unfold mergeVal
      rw [show (kv :: m).reverse = m.reverse ++ [kv] from by simp,
        List.find?_append]
      cases hf : m.reverse.find? (fun kv => decide (kv.1 = k)) with
      | some p => simp
      | none =>
        by_cases hk : kv.1 = k
        · simp [List.find?, hk]
        · simp [List.find?, hk]
    rw [hrev, dictGet_dictInsert]
    cases hm : mergeVal m k with
    | some v => simp
    | none =>
      by_cases hk : kv.1 = k
      · simp only [Option.none_or]
        rw [if_pos hk.symm, if_pos hk, Option.or_some]
      · have hne : ¬ k = kv.1 := fun hh => hk hh.symm
        simp only [Option.none_or]
        rw [if_neg hne, if_neg hk, Option.none_or]

end Dict

/-! ### Fingerprint matcher (`match_fw_to_car`) -/

/-- `TOYOTA.RAV4` from `selfdrive/car/toyota/values.py` (an external
constant of the repository; the concrete string only serves as a distinct
identity). -/
def TOYOTA_RAV4 : Model := "TOYOTA RAV4 2017"

/-- `TOYOTA.COROLLA` (external constant, see `TOYOTA_RAV4`). -/
def TOYOTA_COROLLA : Model := "TOYOTA COROLLA 2017"

/-- `TOYOTA.HIGHLANDER` (external constant, see `TOYOTA_RAV4`). -/
def TOYOTA_HIGHLANDER : Model := "TOYOTA HIGHLANDER 2017"

/-- `TOYOTA.COROLLA_TSS2` (external constant, see `TOYOTA_RAV4`). -/
def TOYOTA_COROLLA_TSS2 : Model := "TOYOTA COROLLA TSS2 2019"

/-- `TOYOTA.CHR` (external constant, see `TOYOTA_RAV4`). -/
def TOYOTA_CHR : Model := "TOYOTA C-HR 2017"

/-- The `ESSENTIAL_ECUS` list from `match_fw_to_car` (the source declares
it inside the entry loop; it is a constant). -/
def ESSENTIAL_ECUS : List EcuType :=
  [.engine, .eps, .esp, .fwdRadar, .fwdCamera, .vsa, .electricBrakeBooster]

/-- The observation key a `CarFw` record decodes to in `match_fw_to_car`:
`sub_addr = fw.subAddress if fw.subAddress != 0 else None`. -/
def carFwKey (fw : CarFw) : Addr × SubAddr :=
  (fw.address, if fw.subAddress ≠ 0 then some fw.subAddress else none)

/-- The `fw_versions_dict` built at the top of `match_fw_to_car`. -/
def fwVersionsDict (fw_versions : List CarFw) : List ((Addr × SubAddr) × Bytes) :=
  fw_versions.foldl (fun d fw => dictInsert d (carFwKey fw) fw.fwVersion) []

/-- Python `found_version in expected_versions` where `found_version` may
be `None` and `expected_versions` holds byte strings only (so `None` is
never a member). -/
def expectedMem (found : Option Bytes) (expected : List Bytes) : Bool :=
  match found with
  | none => false
  | some v => decide (v ∈ expected)

/-- The body of the inner entry loop of `match_fw_to_car`: `true` exactly
when the entry makes the candidate invalid (the branch reaching
`invalid.append(candidate); break`), `false` when the entry is skipped
via one of the leniency `continue`s or the observed version is in the
expected set. -/
def entryInvalid (fwd : List ((Addr × SubAddr) × Bytes)) (candidate : Model)
    (entry : EcuKey × List Bytes) : Bool :=
  let ecu_type := entry.1.1
  let addr : Addr × SubAddr := (entry.1.2.1, entry.1.2.2)
  let found_version := dictGet fwd addr
  if ecu_type = .esp ∧ candidate ∈ [TOYOTA_RAV4, TOYOTA_COROLLA, TOYOTA_HIGHLANDER]
      ∧ found_version = none then
    false
  else if ecu_type = .engine ∧ candidate ∈ [TOYOTA_COROLLA_TSS2, TOYOTA_CHR]
      ∧ found_version = none then
    false
  else if ecu_type ∉ ESSENTIAL_ECUS ∧ found_version = none then
    false
  else
    !(expectedMem found_version entry.2)

/-- The `invalid` list accumulated by `match_fw_to_car`: a candidate is
appended (once, thanks to the `break`) exactly when some entry of its
fingerprint invalidates it. -/
def invalidModels (table : FwTable) (fwd : List ((Addr × SubAddr) × Bytes)) :
    List Model :=
  (table.filter (fun cf => cf.2.any (entryInvalid fwd cf.1))).map Prod.fst

/-- `match_fw_to_car` with the external global `FW_VERSIONS` made an
explicit parameter.  The source returns
`set(candidates.keys()) - set(invalid)`; here the set is represented by
the key list filtered by non-membership in `invalid` (set semantics are
recovered through `∈`). -/
def match_fw_to_car (table : FwTable) (fw_versions : List CarFw) : List Model :=
  let fwd := fwVersionsDict fw_versions
  (table.map Prod.fst).filter (fun m => decide (m ∉ invalidModels table fwd))

/-! ### Request catalog (`REQUESTS` and the byte constants above it)

The numeric values of `uds.SERVICE_TYPE`, `uds.SESSION_TYPE` and
`uds.DATA_IDENTIFIER_TYPE` come from the external `panda.python.uds`
dependency (standard UDS codes). -/

/-- `struct.pack("!H", val)`: two big-endian bytes (`val < 2^16`). -/
def p16 (val : Nat) : Bytes := [val / 256 % 256, val % 256]

def SERVICE_TESTER_PRESENT : Nat := 0x3e
def SERVICE_DIAGNOSTIC_SESSION_CONTROL : Nat := 0x10
def SERVICE_READ_DATA_BY_IDENTIFIER : Nat := 0x22
def SESSION_DEFAULT : Nat := 0x1
def SESSION_EXTENDED_DIAGNOSTIC : Nat := 0x3
def DATA_ID_APP_SOFTWARE_IDENT : Nat := 0xf181
def DATA_ID_SPARE_PART_NUMBER : Nat := 0xf187

def TESTER_PRESENT_REQUEST : Bytes := [SERVICE_TESTER_PRESENT, 0x0]
def TESTER_PRESENT_RESPONSE : Bytes := [SERVICE_TESTER_PRESENT + 0x40, 0x0]

def SHORT_TESTER_PRESENT_REQUEST : Bytes := [SERVICE_TESTER_PRESENT]
def SHORT_TESTER_PRESENT_RESPONSE : Bytes := [SERVICE_TESTER_PRESENT + 0x40]

def DEFAULT_DIAGNOSTIC_REQUEST : Bytes :=
  [SERVICE_DIAGNOSTIC_SESSION_CONTROL, SESSION_DEFAULT]
def DEFAULT_DIAGNOSTIC_RESPONSE : Bytes :=
  [SERVICE_DIAGNOSTIC_SESSION_CONTROL + 0x40, SESSION_DEFAULT, 0x0, 0x32, 0x1, 0xf4]

def EXTENDED_DIAGNOSTIC_REQUEST : Bytes :=
  [SERVICE_DIAGNOSTIC_SESSION_CONTROL, SESSION_EXTENDED_DIAGNOSTIC]
def EXTENDED_DIAGNOSTIC_RESPONSE : Bytes :=
  [SERVICE_DIAGNOSTIC_SESSION_CONTROL + 0x40, SESSION_EXTENDED_DIAGNOSTIC,
   0x0, 0x32, 0x1, 0xf4]

def UDS_VERSION_REQUEST : Bytes :=
  [SERVICE_READ_DATA_BY_IDENTIFIER] ++ p16 DATA_ID_APP_SOFTWARE_IDENT
def UDS_VERSION_RESPONSE : Bytes :=
  [SERVICE_READ_DATA_BY_IDENTIFIER + 0x40] ++ p16 DATA_ID_APP_SOFTWARE_IDENT

def HYUNDAI_VERSION_REQUEST_SHORT : Bytes :=
  [SERVICE_READ_DATA_BY_IDENTIFIER] ++ p16 0xf1a0
def HYUNDAI_VERSION_REQUEST_LONG : Bytes :=
  [SERVICE_READ_DATA_BY_IDENTIFIER] ++ p16 0xf100
def HYUNDAI_VERSION_REQUEST_MULTI : Bytes :=
  [SERVICE_READ_DATA_BY_IDENTIFIER] ++ p16 DATA_ID_SPARE_PART_NUMBER
    ++ p16 DATA_ID_APP_SOFTWARE_IDENT ++ p16 0xf100 ++ p16 0xf1a0
def HYUNDAI_VERSION_RESPONSE : Bytes :=
  [SERVICE_READ_DATA_BY_IDENTIFIER + 0x40]

def TOYOTA_VERSION_REQUEST : Bytes := [0x1a, 0x88, 0x01]
def TOYOTA_VERSION_RESPONSE : Bytes := [0x5a, 0x88, 0x01]

def OBD_VERSION_REQUEST : Bytes := [0x09, 0x04]
def OBD_VERSION_RESPONSE : Bytes := [0x49, 0x04]

def SUBARU_VERSION_REQUEST : Bytes := [0x22, 0xf1, 0x82]
def SUBARU_VERSION_RESPONSE : Bytes := [0x62, 0xf1, 0x82]

/-- One entry of the request catalog: `(brand, request, response)`. -/
abbrev CatalogEntry := Brand × List Bytes × List Bytes

/-- The module-level `REQUESTS` table, in declaration order. -/
def REQUESTS : List CatalogEntry :=
  [ ("hyundai", [HYUNDAI_VERSION_REQUEST_SHORT], [HYUNDAI_VERSION_RESPONSE]),
    ("hyundai", [HYUNDAI_VERSION_REQUEST_LONG], [HYUNDAI_VERSION_RESPONSE]),
    ("hyundai", [HYUNDAI_VERSION_REQUEST_MULTI], [HYUNDAI_VERSION_RESPONSE]),
    ("honda", [UDS_VERSION_REQUEST], [UDS_VERSION_RESPONSE]),
    ("toyota", [SHORT_TESTER_PRESENT_REQUEST, TOYOTA_VERSION_REQUEST],
      [SHORT_TESTER_PRESENT_RESPONSE, TOYOTA_VERSION_RESPONSE]),
    ("toyota", [SHORT_TESTER_PRESENT_REQUEST, OBD_VERSION_REQUEST],
      [SHORT_TESTER_PRESENT_RESPONSE, OBD_VERSION_RESPONSE]),
    ("toyota",
      [TESTER_PRESENT_REQUEST, DEFAULT_DIAGNOSTIC_REQUEST,
        EXTENDED_DIAGNOSTIC_REQUEST, UDS_VERSION_REQUEST],
      [TESTER_PRESENT_RESPONSE, DEFAULT_DIAGNOSTIC_RESPONSE,
        EXTENDED_DIAGNOSTIC_RESPONSE, UDS_VERSION_RESPONSE]),
    ("subaru", [TESTER_PRESENT_REQUEST, SUBARU_VERSION_REQUEST],
      [TESTER_PRESENT_RESPONSE, SUBARU_VERSION_RESPONSE]) ]

/-! ### Address planner (first half of `get_fw_versions`) -/

/-- A `(brand, addr, sub_addr)` triple, the element type of the plan
groups (`a = (brand, addr, sub_addr)` in the source). -/
abbrev Triple := Brand × Addr × SubAddr

/-- A dynamically-typed Python tuple component, needed because the source
compares a 3-tuple `(brand, addr, sub_addr)` with the 2-tuple keys
`(addr, sub_addr)` of the `ecu_types` dict (`if a not in ecu_types:`).
Python tuple equality across different shapes is total and is modelled by
equality of `List PyVal`. -/
inductive PyVal where
  | vstr (s : String)
  | vint (n : Nat)
  | vnone
  deriving DecidableEq, Repr

/-- A Python `None`-able sub-address as a tuple component. -/
def pySub : SubAddr → PyVal
  | none => .vnone
  | some n => .vint n

/-- The 3-tuple `(brand, addr, sub_addr)` as a Python tuple. -/
def tripleKey (b : Brand) (a : Addr) (s : SubAddr) : List PyVal :=
  [.vstr b, .vint a, pySub s]

/-- The 2-tuple `(addr, sub_addr)` as a Python tuple (the actual key
shape of `ecu_types`). -/
def pairKey (a : Addr) (s : SubAddr) : List PyVal :=
  [.vint a, pySub s]

/-- The three mutable locals of the planner loop in `get_fw_versions`:
`ecu_types`, `parallel_addrs` and the list `addrs` of singleton groups. -/
structure PlannerState where
  ecu_types : List (List PyVal × EcuType)
  parallel_addrs : List Triple
  addrs : List (List Triple)
  deriving Repr

/-- Python `if x not in l: l.append(x)`. -/
def addOnce {α : Type} [DecidableEq α] (l : List α) (x : α) : List α :=
  if x ∈ l then l else l ++ [x]

/-- One iteration of the planner loop body for a table item
`(brand, (ecu_type, addr, sub_addr))`, exactly as written in the source:
the membership guard on `ecu_types` tests the 3-tuple `a` against the
dict's 2-tuple keys. -/
def plannerStep (st : PlannerState) (item : Brand × EcuKey) : PlannerState :=
  let b := item.1
  let ecu_type := item.2.1
  let addr := item.2.2.1
  let sub_addr := item.2.2.2
  let a : Triple := (b, addr, sub_addr)
  let ecu_types :=
    if st.ecu_types.any (fun kv => decide (kv.1 = tripleKey b addr sub_addr)) then
      st.ecu_types
    else
      dictInsert st.ecu_types (pairKey addr sub_addr) ecu_type
  match sub_addr with
  | none =>
      { ecu_types := ecu_types
        parallel_addrs := addOnce st.parallel_addrs a
        addrs := st.addrs }
  | some _ =>
      { ecu_types := ecu_types
        parallel_addrs := st.parallel_addrs
        addrs := addOnce st.addrs [a] }

/-- The `versions` table actually iterated: `versions.update(extra)` when
an extra probe set is supplied. -/
def effectiveVersions (versions : BrandTable) (extra : Option BrandTable) :
    BrandTable :=
  match extra with
  | none => versions
  | some e => dictUpdateAll versions e

/-- The planner's triple-nested loop over
`versions.items() / brand_versions.values() / c.keys()`. -/
def plannerRun (versions : BrandTable) : PlannerState :=
  versions.foldl
    (fun st bv =>
      bv.2.foldl
        (fun st mv =>
          mv.2.foldl (fun st entry => plannerStep st (bv.1, entry.1)) st)
        st)
    ⟨[], [], []⟩

/-- The flattened iteration order of the planner loop: every
`(brand, (ecu_type, addr, sub_addr))` item in table order. -/
def tableItems (versions : BrandTable) : List (Brand × EcuKey) :=
  versions.flatMap fun bv =>
    bv.2.flatMap fun mv =>
      mv.2.map fun entry => (bv.1, entry.1)

/-- The parallel group of the plan built by `get_fw_versions`. -/
def planParallel (versions : BrandTable) (extra : Option BrandTable) :
    List Triple :=
  (plannerRun (effectiveVersions versions extra)).parallel_addrs

/-- The singleton groups of the plan built by `get_fw_versions`. -/
def planSingles (versions : BrandTable) (extra : Option BrandTable) :
    List (List Triple) :=
  (plannerRun (effectiveVersions versions extra)).addrs

/-- The full plan: `addrs.insert(0, parallel_addrs)`. -/
def getFwPlan (versions : BrandTable) (extra : Option BrandTable) :
    List (List Triple) :=
  planParallel versions extra :: planSingles versions extra

/-! ### Query orchestrator (second half of `get_fw_versions`) -/

/-- An observation key `(addr, sub_addr)`. -/
abbrev ObsKey := Addr × SubAddr

/-- The transport collaborator
`IsoTpParallelQuery(sendcan, logcan, bus, addrs, request, response).get_data(t)`:
`.error` models a raised exception, `.ok` the returned mapping. -/
abbrev Transport :=
  List ObsKey → List Bytes → List Bytes → ℚ → Except String (List (ObsKey × Bytes))

/-- One recorded transport invocation. -/
structure Call where
  groupIdx : Nat
  addrs : List ObsKey
  request : List Bytes
  response : List Bytes
  timeout : ℚ
  deriving DecidableEq, Repr

/-- The orchestrator state: the running `fw_versions` dict, plus the
instrumentation trace (`calls`: every transport invocation in order;
`merges`: the payload of every successful `fw_versions.update`). -/
structure OrchState where
  fw_versions : List (ObsKey × Bytes)
  calls : List Call
  merges : List (List (ObsKey × Bytes))
  deriving Repr

/-- The list comprehension
`[(a, s) for (b, a, s) in addr_chunk if b in (brand, 'any')]`. -/
def vendorFilter (brand : Brand) (addr_chunk : List Triple) : List ObsKey :=
  (addr_chunk.filter fun t => decide (t.1 = brand ∨ t.1 = "any")).map
    fun t => (t.2.1, t.2.2)

/-- `t = 2 * timeout if i == 0 else timeout`. -/
def groupTimeout (timeout : ℚ) (i : Nat) : ℚ :=
  if i = 0 then 2 * timeout else timeout

/-- The `chunks` generator with its default chunk size of 128:
`for i in range(0, len(l), 128): yield l[i:i + 128]` — one slice per
start index `128 * k` with `k < ⌈len(l) / 128⌉`. -/
def chunks {α : Type} (l : List α) : List (List α) :=
  (List.range ((l.length + 127) / 128)).map fun i => (l.drop (128 * i)).take 128

/-- The body of the innermost orchestration loop (one catalog entry for
one chunk of one group): filter the chunk by brand, skip when empty,
otherwise invoke the transport; a raised exception (`.error`) is caught
and contributes no data, a successful result is merged with
`fw_versions.update`. -/
def orchEntryStep (transport : Transport) (timeout : ℚ) (i : Nat)
    (addr_chunk : List Triple) (st : OrchState) (entry : CatalogEntry) :
    OrchState :=
  let addrs := vendorFilter entry.1 addr_chunk
  if addrs.isEmpty then st
  else
    let t := groupTimeout timeout i
    let st' := { st with calls := st.calls ++ [⟨i, addrs, entry.2.1, entry.2.2, t⟩] }
    match transport addrs entry.2.1 entry.2.2 t with
    | .error _ => st'
    | .ok data =>
        { st' with
          fw_versions := dictUpdateAll st'.fw_versions data
          merges := st'.merges ++ [data] }

/-- The full orchestration loop over enumerated plan groups, chunks and
catalog entries. -/
def runQueries (transport : Transport) (timeout : ℚ)
    (plan : List (List Triple)) : OrchState :=
  plan.enum.foldl
    (fun st ig =>
      (chunks ig.2).foldl
        (fun st ch => REQUESTS.foldl (orchEntryStep transport timeout ig.1 ch) st)
        st)
    ⟨[], [], []⟩

/-- The `CarFw` message built for one `fw_versions` item at the end of
`get_fw_versions`: `subAddress` keeps its capnp default `0` when the
sub-address is `None`.  (A key missing from `ecu_types` would raise in
the source; `ecu_types` holds a value for every queried pair key, and the
`.getD .unknown` default is never reached on source-reachable inputs.) -/
def buildCarFw (ecu_types : List (List PyVal × EcuType)) (kv : ObsKey × Bytes) :
    CarFw :=
  { ecu := (dictGet ecu_types (pairKey kv.1.1 kv.1.2)).getD .unknown
    fwVersion := kv.2
    address := kv.1.1
    subAddress :=
      match kv.1.2 with
      | some s => s
      | none => 0 }

/-- `get_fw_versions` with the external fingerprint data and transport
made explicit parameters. -/
def get_fw_versions (versions : BrandTable) (extra : Option BrandTable)
    (transport : Transport) (timeout : ℚ) : List CarFw :=
  let eff := effectiveVersions versions extra
  let st := plannerRun eff
  let o := runQueries transport timeout (st.parallel_addrs :: st.addrs)
  o.fw_versions.map (buildCarFw st.ecu_types)

/-! ### Generic fold helpers -/

theorem foldlPreserves {α β : Type} (f : β → α → β) (P : β → Prop)
    (hstep : ∀ st x, P st → P (f st x)) :
    ∀ (l : List α) (st : β), P st → P (l.foldl f st) := by
  intro l
  induction l with
  | nil => intro st h; exact h
  | cons x l ih => intro st h; exact ih _ (hstep st x h)

theorem foldlRel {α β γ : Type} (f : β → α → β) (g : γ → α → γ)
    (R : β → γ → Prop)
    (hstep : ∀ st1 st2 x, R st1 st2 → R (f st1 x) (g st2 x)) :
    ∀ (l : List α) (st1 : β) (st2 : γ), R st1 st2 →
      R (l.foldl f st1) (l.foldl g st2) := by
  intro l
  induction l with
  | nil => intro st1 st2 h; exact h
  | cons x l ih => intro st1 st2 h; exact ih _ _ (hstep st1 st2 x h)

theorem foldl_flatMap_eq {α β γ : Type} (g : γ → List α) (f : β → α → β)
    (l : List γ) (b : β) :
    (l.flatMap g).foldl f b = l.foldl (fun b c => (g c).foldl f b) b := by
  induction l generalizing b with
  | nil => rfl
  | cons c l ih => simp [List.flatMap_cons, List.foldl_append, ih]

/-! ### Planner characterization -/

theorem plannerRun_eq_foldl (versions : BrandTable) :
    plannerRun versions = (tableItems versions).foldl plannerStep ⟨[], [], []⟩ := by
  unfold plannerRun tableItems
  rw [foldl_flatMap_eq]
  congr 1
  funext st bv
  rw [foldl_flatMap_eq]
  congr 1
  funext st mv
  rw [List.foldl_map]

theorem mem_addOnce {α : Type} [DecidableEq α] (l : List α) (x y : α) :
    y ∈ addOnce l x ↔ y = x ∨ y ∈ l := by
  unfold addOnce
  by_cases h : x ∈ l
  · simp only [if_pos h]
    constructor
    · exact Or.inr
    · rintro (rfl | h2)
      · exact h
      · exact h2
  · simp [if_neg h, or_comm]

theorem nodup_addOnce {α : Type} [DecidableEq α] (l : List α) (x : α)
    (h : l.Nodup) : (addOnce l x).Nodup := by
  unfold addOnce
  by_cases hx : x ∈ l
  · simpa [if_pos hx]
  · simp only [if_neg hx]
    exact List.Nodup.append h (List.nodup_singleton x)
      (fun a ha hb => by
        simp only [List.mem_singleton] at hb
        subst hb
        exact hx ha)

/-- The common shape of the planner's two dedup-append accumulations:
walk the items, and whenever `f` yields a contribution, add it with the
`if x not in l: l.append(x)` idiom. -/
def collectOnce {α β : Type} [DecidableEq β] (f : α → Option β) :
    List β → List α → List β
  | l0, [] => l0
  | l0, t :: ts =>
      match f t with
      | some b => collectOnce f (addOnce l0 b) ts
      | none => collectOnce f l0 ts

theorem mem_collectOnce {α β : Type} [DecidableEq β] (f : α → Option β)
    (l0 : List β) (ts : List α) (b : β) :
    b ∈ collectOnce f l0 ts ↔ b ∈ l0 ∨ ∃ t ∈ ts, f t = some b := by
  induction ts generalizing l0 with
  | nil => simp [collectOnce]
  | cons t ts ih =>
    cases hf : f t with
    | none =>
      rw [show collectOnce f l0 (t :: ts) = collectOnce f l0 ts from by
        simp [collectOnce, hf]]
      rw [ih]
      constructor
      · rintro (h | ⟨u, hu, hub⟩)
        · exact Or.inl h
        · exact Or.inr ⟨u, List.mem_cons_of_mem _ hu, hub⟩
      · rintro (h | ⟨u, hu, hub⟩)
        · exact Or.inl h
        · rcases List.mem_cons.mp hu with rfl | hu'
          · rw [hf] at hub
            exact absurd hub (by simp)
          · exact Or.inr ⟨u, hu', hub⟩
    | some b' =>
      rw [show collectOnce f l0 (t :: ts) = collectOnce f (addOnce l0 b') ts from by
        simp [collectOnce, hf]]
      rw [ih]
      constructor
      · rintro (h | ⟨u, hu, hub⟩)
        · rcases (mem_addOnce l0 b' b).mp h with rfl | h2
          · exact Or.inr ⟨t, List.mem_cons_self t ts, hf⟩
          · exact Or.inl h2
        · exact Or.inr ⟨u, List.mem_cons_of_mem _ hu, hub⟩
      · rintro (h | ⟨u, hu, hub⟩)
        · exact Or.inl ((mem_addOnce l0 b' b).mpr (Or.inr h))
        · rcases List.mem_cons.mp hu with rfl | hu'
          · rw [hf] at hub
            have : b = b' := (Option.some_injective _ hub).symm
            exact Or.inl ((mem_addOnce l0 b' b).mpr (Or.inl this))
          · exact Or.inr ⟨u, hu', hub⟩

theorem nodup_collectOnce {α β : Type} [DecidableEq β] (f : α → Option β)
    (l0 : List β) (ts : List α) (h : l0.Nodup) :
    (collectOnce f l0 ts).Nodup := by
  induction ts generalizing l0 with
  | nil => exact h
  | cons t ts ih =>
    cases hf : f t with
    | none =>
      rw [show collectOnce f l0 (t :: ts) = collectOnce f l0 ts from by
        simp [collectOnce, hf]]
      exact ih _ h
    | some b' =>
      rw [show collectOnce f l0 (t :: ts) = collectOnce f (addOnce l0 b') ts from by
        simp [collectOnce, hf]]
      exact ih _ (nodup_addOnce _ _ h)

/-- The parallel-group contribution of one table item. -/
def parItem (it : Brand × EcuKey) : Option Triple :=
  match it.2.2.2 with
  | none => some (it.1, it.2.2.1, none)
  | some _ => none

/-- The singleton-group contribution of one table item. -/
def singleItem (it : Brand × EcuKey) : Option (List Triple) :=
  match it.2.2.2 with
  | none => none
  | some n => some [(it.1, it.2.2.1, some n)]

theorem plannerStep_parallel_none (st : PlannerState) (it : Brand × EcuKey)
    (h : parItem it = none) :
    (plannerStep st it).parallel_addrs = st.parallel_addrs := by
  rcases it with ⟨b, et, ad, s⟩
  cases s with
  | none => simp [parItem] at h
  | some n => rfl

theorem plannerStep_parallel_some (st : PlannerState) (it : Brand × EcuKey)
    (t : Triple) (h : parItem it = some t) :
    (plannerStep st it).parallel_addrs = addOnce st.parallel_addrs t := by
  rcases it with ⟨b, et, ad, s⟩
  cases s with
  | none =>
    simp only [parItem] at h
    have h' := Option.some_injective _ h
    rw [← h']
    rfl
  | some n => simp [parItem] at h

theorem plannerStep_addrs_none (st : PlannerState) (it : Brand × EcuKey)
    (h : singleItem it = none) :
    (plannerStep st it).addrs = st.addrs := by
  rcases it with ⟨b, et, ad, s⟩
  cases s with
  | none => rfl
  | some n => simp [singleItem] at h

theorem plannerStep_addrs_some (st : PlannerState) (it : Brand × EcuKey)
    (g : List Triple) (h : singleItem it = some g) :
    (plannerStep st it).addrs = addOnce st.addrs g := by
  rcases it with ⟨b, et, ad, s⟩
  cases s with
  | none => simp [singleItem] at h
  | some n =>
    simp only [singleItem] at h
    have h' := Option.some_injective _ h
    rw [← h']
    rfl

theorem foldl_plannerStep_parallel (ts : List (Brand × EcuKey))
    (st : PlannerState) :
    (ts.foldl plannerStep st).parallel_addrs
      = collectOnce parItem st.parallel_addrs ts := by
  induction ts generalizing st with
  | nil => rfl
  | cons t ts ih =>
    rw [List.foldl_cons, ih]
    cases hp : parItem t with
    | none =>
      rw [plannerStep_parallel_none st t hp]
      simp [collectOnce, hp]
    | some x =>
      rw [plannerStep_parallel_some st t x hp]
      simp [collectOnce, hp]

theorem foldl_plannerStep_addrs (ts : List (Brand × EcuKey))
    (st : PlannerState) :
    (ts.foldl plannerStep st).addrs
      = collectOnce singleItem st.addrs ts := by
  induction ts generalizing st with
  | nil => rfl
  | cons t ts ih =>
    rw [List.foldl_cons, ih]
    cases hp : singleItem t with
    | none =>
      rw [plannerStep_addrs_none st t hp]
      simp [collectOnce, hp]
    | some x =>
      rw [plannerStep_addrs_some st t x hp]
      simp [collectOnce, hp]

theorem planParallel_eq (versions : BrandTable) (extra : Option BrandTable) :
    planParallel versions extra
      = collectOnce parItem [] (tableItems (effectiveVersions versions extra)) := by
  unfold planParallel
  rw [plannerRun_eq_foldl]
  exact foldl_plannerStep_parallel _ _

theorem planSingles_eq (versions : BrandTable) (extra : Option BrandTable) :
    planSingles versions extra
      = collectOnce singleItem [] (tableItems (effectiveVersions versions extra)) := by
  unfold planSingles
  rw [plannerRun_eq_foldl]
  exact foldl_plannerStep_addrs _ _

theorem parItem_sub {it : Brand × EcuKey} {t : Triple}
    (h : parItem it = some t) : t.2.2 = none := by
  rcases it with ⟨b, et, ad, s⟩
  cases s with
  | none =>
    simp only [parItem] at h
    rw [← Option.some_injective _ h]
  | some n => simp [parItem] at h

theorem singleItem_shape {it : Brand × EcuKey} {g : List Triple}
    (h : singleItem it = some g) :
    ∃ b a n, g = [(b, a, some n)] := by
  rcases it with ⟨b, et, ad, s⟩
  cases s with
  | none => simp [singleItem] at h
  | some n =>
    simp only [singleItem] at h
    exact ⟨b, ad, n, (Option.some_injective _ h).symm⟩

theorem mem_planParallel (versions : BrandTable) (extra : Option BrandTable)
    (t : Triple) :
    t ∈ planParallel versions extra ↔
      ∃ it ∈ tableItems (effectiveVersions versions extra), parItem it = some t := by
  rw [planParallel_eq, mem_collectOnce]
  simp

theorem mem_planSingles (versions : BrandTable) (extra : Option BrandTable)
    (g : List Triple) :
    g ∈ planSingles versions extra ↔
      ∃ it ∈ tableItems (effectiveVersions versions extra), singleItem it = some g := by
  rw [planSingles_eq, mem_collectOnce]
  simp

theorem nodup_planParallel (versions : BrandTable) (extra : Option BrandTable) :
    (planParallel versions extra).Nodup := by
  rw [planParallel_eq]
  exact nodup_collectOnce _ _ _ (List.nodup_nil)

theorem nodup_planSingles (versions : BrandTable) (extra : Option BrandTable) :
    (planSingles versions extra).Nodup := by
  rw [planSingles_eq]
  exact nodup_collectOnce _ _ _ (List.nodup_nil)

/-- Occurrence count of `x` in `l` (kept separate from `List.count` to
avoid `BEq` instance ambiguity on nested products). -/
def countOcc {α : Type} [DecidableEq α] (x : α) (l : List α) : Nat :=
  l.countP (fun y => decide (y = x))

theorem countOcc_eq_one_of_mem {α : Type} [DecidableEq α] {x : α} {l : List α}
    (hd : l.Nodup) (h : x ∈ l) : countOcc x l = 1 := by
  induction l with
  | nil => simp at h
  | cons y rest ih =>
    rw [List.nodup_cons] at hd
    by_cases hxy : y = x
    · subst hxy
      unfold countOcc
      rw [List.countP_cons_of_pos _ _ (by simp)]
      have hz : rest.countP (fun z => decide (z = y)) = 0 := by
        rw [List.countP_eq_zero]
        intro z hz
        simp only [decide_eq_true_eq]
        rintro rfl
        exact hd.1 hz
      rw [hz]
    · rcases List.mem_cons.mp h with rfl | h2
      · exact absurd rfl hxy
      · unfold countOcc
        rw [List.countP_cons_of_neg _ _ (by simp [hxy])]
        exact ih hd.2 h2

theorem not_mem_planSingles_of_sub_none (versions : BrandTable)
    (extra : Option BrandTable) (b : Brand) (a : Addr) :
    ∀ g ∈ planSingles versions extra, (b, (a, (none : Option Nat))) ∉ g := by
  intro g hg hin
  obtain ⟨it, _, hsi⟩ := (mem_planSingles versions extra g).mp hg
  obtain ⟨b', a', n, rfl⟩ := singleItem_shape hsi
  have h := List.mem_singleton.mp hin
  simp at h

/-! ### Claim C1 -/

/-- A fingerprint table in which two brands list the same subaddressed
address pair `(0x750, 9)`. -/
def sharedSubaddrTable : BrandTable :=
  [("toyota", [("m1", [((EcuType.engine, 0x750, some 9), [[1]])])]),
   ("honda", [("m2", [((EcuType.eps, 0x750, some 9), [[2]])])])]

/-- **C1, counterexample.**  The claim says every `(address, subAddress)`
pair appearing in the table appears in exactly one plan group.  On
`sharedSubaddrTable` the pair `(0x750, 9)` appears in *two* plan groups,
because the planner deduplicates `(brand, address, subAddress)` triples,
not `(address, subAddress)` pairs: each brand's copy gets its own
singleton group. -/
theorem c1_pair_in_two_groups :
    ((getFwPlan sharedSubaddrTable none).countP
      (fun g => g.any (fun t => decide (t.2.1 = 0x750 ∧ t.2.2 = some 9)))) = 2
    ∧ decide (((getFwPlan sharedSubaddrTable none).countP
      (fun g => g.any (fun t => decide (t.2.1 = 0x750 ∧ t.2.2 = some 9)))) = 1)
      = false := by
  refine ⟨by decide, by decide⟩

/-- **C1 (amended).**  For every fingerprint table (including any
caller-supplied extra probe set), the plan built by `get_fw_versions`
partitions the probed `(brand, address, subAddress)` *triples*: every
triple with `subAddress = None` is added once (deduplicated) to the
single parallel group that is processed first, and every triple with a
non-`None` subAddress occupies its own singleton group; consequently
every triple appears in exactly one plan group.  (The original claim's
stronger pair-level statement fails, see `c1_pair_in_two_groups`.) -/
theorem c1_plan_partitions_triples (versions : BrandTable)
    (extra : Option BrandTable) (b : Brand) (et : EcuType) (a : Addr)
    (s : SubAddr)
    (hmem : (b, (et, (a, s))) ∈ tableItems (effectiveVersions versions extra)) :
    getFwPlan versions extra = planParallel versions extra :: planSingles versions extra
    ∧ (s = none →
        countOcc (b, (a, s)) (planParallel versions extra) = 1
        ∧ ∀ g ∈ planSingles versions extra, (b, (a, s)) ∉ g)
    ∧ (∀ n, s = some n →
        countOcc [(b, (a, s))] (planSingles versions extra) = 1
        ∧ (b, (a, s)) ∉ planParallel versions extra
        ∧ ∀ g ∈ planSingles versions extra, (b, (a, s)) ∈ g → g = [(b, (a, s))])
    ∧ (getFwPlan versions extra).countP (fun g => decide ((b, (a, s)) ∈ g)) = 1 := by
  refine ⟨rfl, ?_, ?_, ?_⟩
  · rintro rfl
    have hpar : (b, (a, (none : Option Nat))) ∈ planParallel versions extra :=
      (mem_planParallel versions extra _).mpr ⟨(b, (et, (a, none))), hmem, rfl⟩
    exact ⟨countOcc_eq_one_of_mem (nodup_planParallel versions extra) hpar,
      not_mem_planSingles_of_sub_none versions extra b a⟩
  · rintro n rfl
    have hsing : [(b, (a, some n))] ∈ planSingles versions extra :=
      (mem_planSingles versions extra _).mpr ⟨(b, (et, (a, some n))), hmem, rfl⟩
    refine ⟨countOcc_eq_one_of_mem (nodup_planSingles versions extra) hsing, ?_, ?_⟩
    · intro hp
      obtain ⟨it, _, hpi⟩ := (mem_planParallel versions extra _).mp hp
      have h := parItem_sub hpi
      simp at h
    · intro g hg hin
      obtain ⟨it, _, hsi⟩ := (mem_planSingles versions extra g).mp hg
      obtain ⟨b', a', m, rfl⟩ := singleItem_shape hsi
      have h := List.mem_singleton.mp hin
      rw [← h]
  · cases s with
    | none =>
      have hpar : (b, (a, (none : Option Nat))) ∈ planParallel versions extra :=
        (mem_planParallel versions extra _).mpr ⟨(b, (et, (a, none))), hmem, rfl⟩
      have hzero : (planSingles versions extra).countP
          (fun g => decide ((b, (a, (none : Option Nat))) ∈ g)) = 0 := by
        rw [List.countP_eq_zero]
        intro g hg
        simp only [decide_eq_true_eq]
        exact not_mem_planSingles_of_sub_none versions extra b a g hg
      show List.countP _ (planParallel versions extra :: planSingles versions extra) = 1
      rw [List.countP_cons_of_pos _ _ (by simpa using hpar), hzero]
    | some n =>
      have hsing : [(b, (a, some n))] ∈ planSingles versions extra :=
        (mem_planSingles versions extra _).mpr ⟨(b, (et, (a, some n))), hmem, rfl⟩
      have hnotpar : (b, (a, some n)) ∉ planParallel versions extra := by
        intro hp
        obtain ⟨it, _, hpi⟩ := (mem_planParallel versions extra _).mp hp
        have h := parItem_sub hpi
        simp at h
      have hiff : ∀ g ∈ planSingles versions extra,
          ((b, (a, some n)) ∈ g ↔ g = [(b, (a, some n))]) := by
        intro g hg
        constructor
        · intro hin
          obtain ⟨it, _, hsi⟩ := (mem_planSingles versions extra g).mp hg
          obtain ⟨b', a', m, rfl⟩ := singleItem_shape hsi
          have h := List.mem_singleton.mp hin
          rw [← h]
        · rintro rfl
          exact List.mem_singleton_self _
      show List.countP _ (planParallel versions extra :: planSingles versions extra) = 1
      rw [List.countP_cons_of_neg _ _ (by simpa using hnotpar)]
      have hcongr : (planSingles versions extra).countP
            (fun g => decide ((b, (a, some n)) ∈ g))
          = (planSingles versions extra).countP (fun g => decide (g = [(b, (a, some n))])) := by
        apply List.countP_congr
        intro g hg
        simp only [decide_eq_true_eq]
        exact hiff g hg
      rw [hcongr]
      exact countOcc_eq_one_of_mem (nodup_planSingles versions extra) hsing

/-! ### Claim C6 -/

/-- A table in which the pair `(0x700, None)` occurs first with ecuType
`engine` (under `brand1`) and later with ecuType `eps` (under `brand2`). -/
def ecuTypeConflictTable : BrandTable :=
  [("brand1", [("m1", [((EcuType.engine, 0x700, none), [[1]])])]),
   ("brand2", [("m2", [((EcuType.eps, 0x700, none), [[2]])])])]

/-- **C6: the code contradicts the claim.**  The claim (and the spec)
say the `(address, subAddress) → ecuType` mapping is built
first-writer-wins.  In the source the guard `if a not in ecu_types:`
tests the 3-tuple `a = (brand, addr, sub_addr)` against a dict keyed by
2-tuples `(addr, sub_addr)`; a 3-tuple never equals a 2-tuple, so the
guard is always true and every occurrence overwrites.  On
`ecuTypeConflictTable` the ecuType recorded for `(0x700, None)` is the
*last* occurrence's (`eps`), not the first occurrence's (`engine`). -/
theorem c6_ecu_types_last_writer_wins :
    dictGet (plannerRun ecuTypeConflictTable).ecu_types (pairKey 0x700 none)
        = some EcuType.eps
    ∧ decide (dictGet (plannerRun ecuTypeConflictTable).ecu_types
        (pairKey 0x700 none) = some EcuType.engine) = false := by
  refine ⟨by decide, by decide⟩

/-- A one-item table exercising the parallel branch of the planner. -/
def parallelProbeTable : BrandTable :=
  [("toyota", [("m1", [((EcuType.engine, 0x700, none), [[1]])])])]

/-- Witness for `c1_plan_partitions_triples` at a concrete table. -/
theorem c1_plan_partitions_triples_witness :
    (("toyota", (EcuType.engine, ((0x700 : Addr), (none : SubAddr))))
        ∈ tableItems (effectiveVersions parallelProbeTable none))
    ∧ countOcc (("toyota" : Brand), ((0x700 : Addr), (none : SubAddr))) (planParallel parallelProbeTable none) = 1
    ∧ (getFwPlan parallelProbeTable none).countP
        (fun g => decide ((("toyota" : Brand), ((0x700 : Addr), (none : SubAddr))) ∈ g)) = 1 := by
  have h := c1_plan_partitions_triples parallelProbeTable none
    "toyota" EcuType.engine 0x700 none (by decide)
  exact ⟨by decide, (h.2.1 rfl).1, h.2.2.2⟩

/-! ### Orchestrator trace characterization -/

/-- The call predicted for catalog entry `r` on chunk `ch` of group `i`:
`none` when the vendor filter is empty (the transport is not invoked). -/
def entryCall (timeout : ℚ) (i : Nat) (ch : List Triple) (r : CatalogEntry) :
    Option Call :=
  let f := vendorFilter r.1 ch
  if f.isEmpty then none
  else some ⟨i, f, r.2.1, r.2.2, groupTimeout timeout i⟩

/-- All calls predicted for a plan, in processing order. -/
def callsOfPlan (timeout : ℚ) (plan : List (List Triple)) : List Call :=
  plan.enum.flatMap fun ig =>
    (chunks ig.2).flatMap fun ch =>
      REQUESTS.filterMap (entryCall timeout ig.1 ch)

theorem orchEntryStep_calls (transport : Transport) (timeout : ℚ) (i : Nat)
    (ch : List Triple) (st : OrchState) (r : CatalogEntry) :
    (orchEntryStep transport timeout i ch st r).calls
      = st.calls ++ (entryCall timeout i ch r).toList := by
  unfold orchEntryStep entryCall
  by_cases h : (vendorFilter r.1 ch).isEmpty
  · simp [h]
  · simp only [h, if_false, Bool.false_eq_true]
    cases transport (vendorFilter r.1 ch) r.2.1 r.2.2 (groupTimeout timeout i) with
    | error e => simp
    | ok data => simp

theorem foldl_orchEntryStep_calls (transport : Transport) (timeout : ℚ)
    (i : Nat) (ch : List Triple) (rs : List CatalogEntry) (st : OrchState) :
    (rs.foldl (orchEntryStep transport timeout i ch) st).calls
      = st.calls ++ rs.filterMap (entryCall timeout i ch) := by
  induction rs generalizing st with
  | nil => simp
  | cons r rs ih =>
    rw [List.foldl_cons, ih, orchEntryStep_calls]
    cases h : entryCall timeout i ch r with
    | none => simp [List.filterMap_cons, h]
    | some c => simp [List.filterMap_cons, h]

theorem foldl_chunks_calls (transport : Transport) (timeout : ℚ) (i : Nat)
    (chs : List (List Triple)) (st : OrchState) :
    ((chs.foldl
        (fun st ch => REQUESTS.foldl (orchEntryStep transport timeout i ch) st)
        st)).calls
      = st.calls ++ chs.flatMap (fun ch => REQUESTS.filterMap (entryCall timeout i ch)) := by
  induction chs generalizing st with
  | nil => simp
  | cons ch chs ih =>
    rw [List.foldl_cons, ih, foldl_orchEntryStep_calls]
    simp [List.flatMap_cons, List.append_assoc]

theorem foldl_groups_calls (transport : Transport) (timeout : ℚ)
    (igs : List (Nat × List Triple)) (st : OrchState) :
    ((igs.foldl
        (fun st ig =>
          (chunks ig.2).foldl
            (fun st ch => REQUESTS.foldl (orchEntryStep transport timeout ig.1 ch) st)
            st)
        st)).calls
      = st.calls ++ igs.flatMap
          (fun ig => (chunks ig.2).flatMap
            (fun ch => REQUESTS.filterMap (entryCall timeout ig.1 ch))) := by
  induction igs generalizing st with
  | nil => simp
  | cons ig igs ih =>
    rw [List.foldl_cons, ih, foldl_chunks_calls]
    simp [List.flatMap_cons, List.append_assoc]

theorem runQueries_calls (transport : Transport) (timeout : ℚ)
    (plan : List (List Triple)) :
    (runQueries transport timeout plan).calls = callsOfPlan timeout plan := by
  unfold runQueries callsOfPlan
  rw [foldl_groups_calls]
  rfl

theorem timeout_of_mem_callsOfPlan (timeout : ℚ) (plan : List (List Triple))
    (c : Call) (h : c ∈ callsOfPlan timeout plan) :
    c.timeout = groupTimeout timeout c.groupIdx := by
  unfold callsOfPlan at h
  simp only [List.mem_flatMap, List.mem_filterMap] at h
  obtain ⟨ig, _, ch, _, r, _, hc⟩ := h
  unfold entryCall at hc
  by_cases he : (vendorFilter r.1 ch).isEmpty
  · simp [he] at hc
  · simp only [he, if_false, Bool.false_eq_true] at hc
    cases Option.some_injective _ hc
    rfl

/-! ### Claims C5 and C7 -/

/-- **C5.**  Every transport invocation made while processing the plan
group with index 0 is passed a timeout exactly twice the timeout passed
to any invocation made for a later group (`2 × baseTimeout` vs
`baseTimeout`). -/
theorem c5_timeout_doubling (transport : Transport) (timeout : ℚ)
    (plan : List (List Triple)) (c1 c2 : Call)
    (h1 : c1 ∈ (runQueries transport timeout plan).calls)
    (h2 : c2 ∈ (runQueries transport timeout plan).calls)
    (hg1 : c1.groupIdx = 0) (hg2 : c2.groupIdx ≠ 0) :
    c1.timeout = 2 * c2.timeout := by
  rw [runQueries_calls] at h1 h2
  rw [timeout_of_mem_callsOfPlan timeout plan c1 h1,
    timeout_of_mem_callsOfPlan timeout plan c2 h2, hg1]
  unfold groupTimeout
  rw [if_pos rfl, if_neg hg2]

/-- A transport that always succeeds with no data. -/
def nullTransport : Transport := fun _ _ _ _ => .ok []

/-- A two-group plan: one parallel (toyota) address, one singleton
subaddressed (toyota) group. -/
def twoGroupPlan : List (List Triple) :=
  [[("toyota", 0x700, none)], [("toyota", 0x750, some 1)]]

/-- Witness for `c5_timeout_doubling` on a concrete two-group run. -/
theorem c5_timeout_doubling_witness :
    (⟨0, [(0x700, none)],
        [SHORT_TESTER_PRESENT_REQUEST, TOYOTA_VERSION_REQUEST],
        [SHORT_TESTER_PRESENT_RESPONSE, TOYOTA_VERSION_RESPONSE],
        groupTimeout 1 0⟩ : Call)
        ∈ (runQueries nullTransport 1 twoGroupPlan).calls
    ∧ (⟨1, [(0x750, some 1)],
        [SHORT_TESTER_PRESENT_REQUEST, TOYOTA_VERSION_REQUEST],
        [SHORT_TESTER_PRESENT_RESPONSE, TOYOTA_VERSION_RESPONSE],
        groupTimeout 1 1⟩ : Call)
        ∈ (runQueries nullTransport 1 twoGroupPlan).calls
    ∧ groupTimeout 1 0 = 2 * groupTimeout 1 1 := by
  have hc : (runQueries nullTransport 1 twoGroupPlan).calls
      = callsOfPlan 1 twoGroupPlan :=
    runQueries_calls nullTransport 1 twoGroupPlan
  have h1 : (⟨0, [(0x700, none)],
      [SHORT_TESTER_PRESENT_REQUEST, TOYOTA_VERSION_REQUEST],
      [SHORT_TESTER_PRESENT_RESPONSE, TOYOTA_VERSION_RESPONSE],
      groupTimeout 1 0⟩ : Call)
      ∈ (runQueries nullTransport 1 twoGroupPlan).calls := by
    rw [hc]
    exact List.Mem.head _
  have h2 : (⟨1, [(0x750, some 1)],
      [SHORT_TESTER_PRESENT_REQUEST, TOYOTA_VERSION_REQUEST],
      [SHORT_TESTER_PRESENT_RESPONSE, TOYOTA_VERSION_RESPONSE],
      groupTimeout 1 1⟩ : Call)
      ∈ (runQueries nullTransport 1 twoGroupPlan).calls := by
    rw [hc]
    exact List.mem_cons_of_mem _ (List.mem_cons_of_mem _
      (List.mem_cons_of_mem _ (List.Mem.head _)))
  refine ⟨h1, h2, ?_⟩
  exact c5_timeout_doubling nullTransport 1 twoGroupPlan _ _ h1 h2 rfl
    (by decide)

/-- **C7.**  The transport is invoked exactly once per (group, chunk,
catalog entry) whose chunk, filtered to the entry's vendor tag or the
wildcard `"any"`, is non-empty; the invocation receives exactly that
filtered address list, and entries whose filter is empty produce no
invocation. -/
theorem c7_vendor_filtered_calls (transport : Transport) (timeout : ℚ)
    (plan : List (List Triple)) :
    (runQueries transport timeout plan).calls
      = plan.enum.flatMap fun ig =>
          (chunks ig.2).flatMap fun ch =>
            REQUESTS.filterMap fun r =>
              if (vendorFilter r.1 ch).isEmpty then none
              else some ⟨ig.1, vendorFilter r.1 ch, r.2.1, r.2.2,
                groupTimeout timeout ig.1⟩ := by
  rw [runQueries_calls]
  rfl

/-! ### Claim C8 -/

/-- The value the *last* successful merge containing the key recorded for
it (`none` if no successful merge contained the key). -/
def lastMergeVal (ms : List (List (ObsKey × Bytes))) (k : ObsKey) :
    Option Bytes :=
  ms.reverse.findSome? fun m => mergeVal m k

theorem dictGet_foldl_updateAll {κ ν : Type} [DecidableEq κ]
    (ms : List (List (κ × ν))) (d : List (κ × ν)) (k : κ) :
    dictGet (ms.foldl dictUpdateAll d) k =
      (ms.reverse.findSome? (fun m => mergeVal m k)).or (dictGet d k) := by
  induction ms generalizing d with
  | nil => simp
  | cons m ms ih =>
    rw [List.foldl_cons, ih, dictGet_dictUpdateAll]
    rw [show (m :: ms).reverse = ms.reverse ++ [m] from by simp,
      List.findSome?_append]
    have h1 : List.findSome? (fun m => mergeVal m k) [m] = mergeVal m k := by
      cases hm : mergeVal m k with
      | some v => rw [List.findSome?_cons_of_isSome _ (by simp [hm]), hm]
      | none => rw [List.findSome?_cons_of_isNone _ (by simp [hm])]; rfl
    rw [h1, Option.or_assoc]

theorem orchEntryStep_fw_eq_merges (transport : Transport) (timeout : ℚ)
    (i : Nat) (ch : List Triple) (st : OrchState) (r : CatalogEntry)
    (h : st.fw_versions = st.merges.foldl dictUpdateAll []) :
    (orchEntryStep transport timeout i ch st r).fw_versions
      = (orchEntryStep transport timeout i ch st r).merges.foldl dictUpdateAll [] := by
  unfold orchEntryStep
  by_cases he : (vendorFilter r.1 ch).isEmpty
  · simpa [he]
  · simp only [he, if_false, Bool.false_eq_true]
    cases transport (vendorFilter r.1 ch) r.2.1 r.2.2 (groupTimeout timeout i) with
    | error e => simpa
    | ok data => simp [List.foldl_append, h]

theorem runQueries_fw_eq_merges (transport : Transport) (timeout : ℚ)
    (plan : List (List Triple)) :
    (runQueries transport timeout plan).fw_versions
      = (runQueries transport timeout plan).merges.foldl dictUpdateAll [] := by
  unfold runQueries
  refine foldlPreserves _
    (fun (st : OrchState) => st.fw_versions = st.merges.foldl dictUpdateAll []) ?_ _ _ rfl
  intro st ig h
  refine foldlPreserves _
    (fun (st : OrchState) => st.fw_versions = st.merges.foldl dictUpdateAll []) ?_ _ _ h
  intro st ch h
  refine foldlPreserves _
    (fun (st : OrchState) => st.fw_versions = st.merges.foldl dictUpdateAll []) ?_ _ _ h
  intro st r h
  exact orchEntryStep_fw_eq_merges transport timeout ig.1 ch st r h

theorem orchEntryStep_keys_nodup (transport : Transport) (timeout : ℚ)
    (i : Nat) (ch : List Triple) (st : OrchState) (r : CatalogEntry)
    (h : (dictKeys st.fw_versions).Nodup) :
    (dictKeys (orchEntryStep transport timeout i ch st r).fw_versions).Nodup := by
  unfold orchEntryStep
  by_cases he : (vendorFilter r.1 ch).isEmpty
  · simpa [he]
  · simp only [he, if_false, Bool.false_eq_true]
    cases transport (vendorFilter r.1 ch) r.2.1 r.2.2 (groupTimeout timeout i) with
    | error e => simpa
    | ok data => exact dictKeys_dictUpdateAll_nodup _ data h

theorem runQueries_keys_nodup (transport : Transport) (timeout : ℚ)
    (plan : List (List Triple)) :
    (dictKeys (runQueries transport timeout plan).fw_versions).Nodup := by
  unfold runQueries
  refine foldlPreserves _ (fun (st : OrchState) => (dictKeys st.fw_versions).Nodup) ?_ _ _
    List.nodup_nil
  intro st ig h
  refine foldlPreserves _ (fun (st : OrchState) => (dictKeys st.fw_versions).Nodup) ?_ _ _ h
  intro st ch h
  refine foldlPreserves _ (fun (st : OrchState) => (dictKeys st.fw_versions).Nodup) ?_ _ _ h
  intro st r h
  exact orchEntryStep_keys_nodup transport timeout ig.1 ch st r h

/-- **C8.**  The observation set accumulated by the orchestration loop
has unique keys, and its value at every key is exactly the value recorded
by the last successful merge containing that key (later merges overwrite
earlier ones). -/
theorem c8_last_write_wins (transport : Transport) (timeout : ℚ)
    (plan : List (List Triple)) :
    (dictKeys (runQueries transport timeout plan).fw_versions).Nodup
    ∧ ∀ k, dictGet (runQueries transport timeout plan).fw_versions k
        = lastMergeVal (runQueries transport timeout plan).merges k := by
  refine ⟨runQueries_keys_nodup transport timeout plan, ?_⟩
  intro k
  rw [runQueries_fw_eq_merges, dictGet_foldl_updateAll]
  rw [show dictGet ([] : List (ObsKey × Bytes)) k = none from rfl,
    Option.or_none]
  rfl

/-! ### Claim C4 -/

/-- The transport with every raised exception replaced by an empty
successful result. -/
def errorsAsNoData (transport : Transport) : Transport :=
  fun a r p t =>
    match transport a r p t with
    | .error _ => .ok []
    | .ok data => .ok data

theorem orchEntryStep_errorsAsNoData (transport : Transport) (timeout : ℚ)
    (i : Nat) (ch : List Triple) (st1 st2 : OrchState) (r : CatalogEntry)
    (h : st1.fw_versions = st2.fw_versions ∧ st1.calls = st2.calls) :
    (orchEntryStep transport timeout i ch st1 r).fw_versions
        = (orchEntryStep (errorsAsNoData transport) timeout i ch st2 r).fw_versions
    ∧ (orchEntryStep transport timeout i ch st1 r).calls
        = (orchEntryStep (errorsAsNoData transport) timeout i ch st2 r).calls := by
  unfold orchEntryStep errorsAsNoData
  by_cases he : (vendorFilter r.1 ch).isEmpty
  · simpa [he]
  · simp only [he, if_false, Bool.false_eq_true]
    cases htr : transport (vendorFilter r.1 ch) r.2.1 r.2.2 (groupTimeout timeout i) with
    | error e => simp [htr, h.1, h.2, dictUpdateAll]
    | ok data => simp [htr, h.1, h.2]

theorem runQueries_errorsAsNoData (transport : Transport) (timeout : ℚ)
    (plan : List (List Triple)) :
    (runQueries transport timeout plan).fw_versions
        = (runQueries (errorsAsNoData transport) timeout plan).fw_versions
    ∧ (runQueries transport timeout plan).calls
        = (runQueries (errorsAsNoData transport) timeout plan).calls := by
  unfold runQueries
  refine foldlRel _ _
    (fun (st1 st2 : OrchState) => st1.fw_versions = st2.fw_versions ∧ st1.calls = st2.calls)
    ?_ _ _ _ ⟨rfl, rfl⟩
  intro st1 st2 ig h
  refine foldlRel _ _
    (fun (st1 st2 : OrchState) => st1.fw_versions = st2.fw_versions ∧ st1.calls = st2.calls)
    ?_ _ _ _ h
  intro st1 st2 ch h
  refine foldlRel _ _
    (fun (st1 st2 : OrchState) => st1.fw_versions = st2.fw_versions ∧ st1.calls = st2.calls)
    ?_ _ _ _ h
  intro st1 st2 r h
  exact orchEntryStep_errorsAsNoData transport timeout ig.1 ch st1 st2 r h

/-- A transport that raises for the honda catalog entry, returns data for
the first toyota entry, and succeeds with no data otherwise. -/
def faultingTransport : Transport := fun _ req _ _ =>
  if req = [UDS_VERSION_REQUEST] then .error "bus fault"
  else if req = [SHORT_TESTER_PRESENT_REQUEST, TOYOTA_VERSION_REQUEST] then
    .ok [((0x700, none), [1, 2, 3])]
  else .ok []

/-- A single parallel group containing one honda and one toyota address
(disjoint addresses, different catalog entries). -/
def mixedBrandPlan : List (List Triple) :=
  [[("honda", 0x18da30f1, none), ("toyota", 0x700, none)]]

/-- **C4.**  A transport error is equivalent to a successful empty
result: replacing every raised exception by "no data" changes neither the
accumulated observation set nor the sequence of transport invocations
(the error is caught, the entry contributes nothing, and processing
continues).  In particular, in a concrete run where the transport raises
for the honda catalog entry but returns data for a toyota entry covering
a disjoint address, the toyota data is still reflected in the output. -/
theorem c4_transport_errors_isolated (transport : Transport) (timeout : ℚ)
    (plan : List (List Triple)) :
    ((runQueries transport timeout plan).fw_versions
        = (runQueries (errorsAsNoData transport) timeout plan).fw_versions
      ∧ (runQueries transport timeout plan).calls
        = (runQueries (errorsAsNoData transport) timeout plan).calls)
    ∧ (runQueries faultingTransport 1 mixedBrandPlan).fw_versions
        = [((0x700, none), [1, 2, 3])] := by
  refine ⟨runQueries_errorsAsNoData transport timeout plan, ?_⟩
  decide

/-! ### Matcher lemmas -/

theorem entryInvalid_eq (fwd : List ((Addr × SubAddr) × Bytes)) (m : Model)
    (et : EcuType) (a : Addr) (s : SubAddr) (exp : List Bytes) :
    entryInvalid fwd m ((et, (a, s)), exp) =
      if et = .esp ∧ m ∈ [TOYOTA_RAV4, TOYOTA_COROLLA, TOYOTA_HIGHLANDER]
          ∧ dictGet fwd (a, s) = none then false
      else if et = .engine ∧ m ∈ [TOYOTA_COROLLA_TSS2, TOYOTA_CHR]
          ∧ dictGet fwd (a, s) = none then false
      else if et ∉ ESSENTIAL_ECUS ∧ dictGet fwd (a, s) = none then false
      else !(expectedMem (dictGet fwd (a, s)) exp) := rfl

theorem entryInvalid_found_mem (fwd : List ((Addr × SubAddr) × Bytes))
    (m : Model) (et : EcuType) (a : Addr) (s : SubAddr) (exp : List Bytes)
    (v : Bytes) (hfound : dictGet fwd (a, s) = some v) (hv : v ∈ exp) :
    entryInvalid fwd m ((et, (a, s)), exp) = false := by
  rw [entryInvalid_eq]
  rw [if_neg (by rintro ⟨-, -, h⟩; rw [hfound] at h; cases h)]
  rw [if_neg (by rintro ⟨-, -, h⟩; rw [hfound] at h; cases h)]
  rw [if_neg (by rintro ⟨-, h⟩; rw [hfound] at h; cases h)]
  rw [hfound]
  simp [expectedMem, hv]

theorem entryInvalid_essential_missing (fwd : List ((Addr × SubAddr) × Bytes))
    (m : Model) (et : EcuType) (a : Addr) (s : SubAddr) (exp : List Bytes)
    (hess : et ∈ ESSENTIAL_ECUS) (hfound : dictGet fwd (a, s) = none)
    (hA : ¬(et = .esp ∧ m ∈ [TOYOTA_RAV4, TOYOTA_COROLLA, TOYOTA_HIGHLANDER]))
    (hB : ¬(et = .engine ∧ m ∈ [TOYOTA_COROLLA_TSS2, TOYOTA_CHR])) :
    entryInvalid fwd m ((et, (a, s)), exp) = true := by
  rw [entryInvalid_eq]
  rw [if_neg (by rintro ⟨h1, h2, -⟩; exact hA ⟨h1, h2⟩)]
  rw [if_neg (by rintro ⟨h1, h2, -⟩; exact hB ⟨h1, h2⟩)]
  rw [if_neg (by rintro ⟨h1, -⟩; exact h1 hess)]
  rw [hfound]
  rfl

theorem mem_invalidModels (table : FwTable)
    (fwd : List ((Addr × SubAddr) × Bytes)) (m : Model) :
    m ∈ invalidModels table fwd ↔
      ∃ fws, (m, fws) ∈ table ∧ fws.any (entryInvalid fwd m) = true := by
  unfold invalidModels
  simp only [List.mem_map, List.mem_filter]
  constructor
  · rintro ⟨cf, ⟨hmem, hany⟩, rfl⟩
    refine ⟨cf.2, ?_, hany⟩
    rw [show (cf.1, cf.2) = cf from rfl]
    exact hmem
  · rintro ⟨fws, hmem, hany⟩
    exact ⟨(m, fws), ⟨hmem, hany⟩, rfl⟩

theorem mem_match_fw_to_car (table : FwTable) (obs : List CarFw) (m : Model) :
    m ∈ match_fw_to_car table obs ↔
      m ∈ table.map Prod.fst
      ∧ m ∉ invalidModels table (fwVersionsDict obs) := by
  unfold match_fw_to_car
  simp only [List.mem_filter, decide_eq_true_eq]

theorem assoc_value_unique {α β : Type} {l : List (α × β)}
    (h : (l.map Prod.fst).Nodup) {a : α} {b1 b2 : β}
    (h1 : (a, b1) ∈ l) (h2 : (a, b2) ∈ l) : b1 = b2 := by
  induction l with
  | nil => cases h1
  | cons x l ih =>
    rw [List.map_cons, List.nodup_cons] at h
    rcases List.mem_cons.mp h1 with e1 | h1'
    · rcases List.mem_cons.mp h2 with e2 | h2'
      · exact (Prod.ext_iff.mp (e1.trans e2.symm)).2
      · exfalso
        apply h.1
        rw [show x.1 = a from by rw [← e1]]
        exact List.mem_map.mpr ⟨(a, b2), h2', rfl⟩
    · rcases List.mem_cons.mp h2 with e2 | h2'
      · exfalso
        apply h.1
        rw [show x.1 = a from by rw [← e2]]
        exact List.mem_map.mpr ⟨(a, b1), h1', rfl⟩
      · exact ih h.2 h1' h2'

/-! ### Claim C2 -/

/-- The one-model table of the claim's concrete scenario: the engine ECU
at `(0x7e0, None)` must report `b"v1"` or `b"v2"`. -/
def exactTable : FwTable :=
  [("M", [((EcuType.engine, 0x7e0, none), [[0x76, 0x31], [0x76, 0x32]])])]

/-- The observation `{(0x7e0, None): b"v1"}` as a `CarFw` list. -/
def exactObsV1 : List CarFw :=
  [{ ecu := .engine, fwVersion := [0x76, 0x31], address := 0x7e0, subAddress := 0 }]

/-- The observation `{(0x7e0, None): b"v3"}` as a `CarFw` list. -/
def exactObsV3 : List CarFw :=
  [{ ecu := .engine, fwVersion := [0x76, 0x33], address := 0x7e0, subAddress := 0 }]

/-- **C2.**  (i) An entry whose key has an observation whose bytes are in
the expected set never disqualifies its model.  (ii) When the observed
value is not a member of the expected set and no leniency rule applies
(spelled exactly as the source's three `continue` conditions), the model
is excluded from the returned candidate set.  (iii) The claim's concrete
scenario: with observation `b"v1"` the model is a candidate, with
`b"v3"` it is not. -/
theorem c2_matcher_exactness :
    (∀ (fwd : List ((Addr × SubAddr) × Bytes)) (m : Model) (et : EcuType)
        (a : Addr) (s : SubAddr) (exp : List Bytes) (v : Bytes),
        dictGet fwd (a, s) = some v → v ∈ exp →
        entryInvalid fwd m ((et, (a, s)), exp) = false)
    ∧ (∀ (table : FwTable) (obs : List CarFw) (m : Model) (fws : Fingerprint)
        (et : EcuType) (a : Addr) (s : SubAddr) (exp : List Bytes),
        (m, fws) ∈ table → ((et, (a, s)), exp) ∈ fws →
        expectedMem (dictGet (fwVersionsDict obs) (a, s)) exp = false →
        ¬(et = .esp ∧ m ∈ [TOYOTA_RAV4, TOYOTA_COROLLA, TOYOTA_HIGHLANDER]
            ∧ dictGet (fwVersionsDict obs) (a, s) = none) →
        ¬(et = .engine ∧ m ∈ [TOYOTA_COROLLA_TSS2, TOYOTA_CHR]
            ∧ dictGet (fwVersionsDict obs) (a, s) = none) →
        ¬(et ∉ ESSENTIAL_ECUS ∧ dictGet (fwVersionsDict obs) (a, s) = none) →
        m ∉ match_fw_to_car table obs)
    ∧ match_fw_to_car exactTable exactObsV1 = ["M"]
    ∧ match_fw_to_car exactTable exactObsV3 = [] := by
  refine ⟨?_, ?_, by decide, by decide⟩
  · intro fwd m et a s exp v hfound hv
    exact entryInvalid_found_mem fwd m et a s exp v hfound hv
  · intro table obs m fws et a s exp hmem hin hexp hA hB hC hm
    have hinv : entryInvalid (fwVersionsDict obs) m ((et, (a, s)), exp) = true := by
      rw [entryInvalid_eq, if_neg hA, if_neg hB, if_neg hC, hexp]
      rfl
    have hbad : m ∈ invalidModels table (fwVersionsDict obs) :=
      (mem_invalidModels table _ m).mpr
        ⟨fws, hmem, List.any_eq_true.mpr ⟨_, hin, hinv⟩⟩
    exact ((mem_match_fw_to_car table obs m).mp hm).2 hbad

/-- Witness for `c2_matcher_exactness` at the claim's concrete scenario. -/
theorem c2_matcher_exactness_witness :
    entryInvalid (fwVersionsDict exactObsV1) "M"
      ((EcuType.engine, (0x7e0, none)), [[0x76, 0x31], [0x76, 0x32]]) = false
    ∧ decide ("M" ∈ match_fw_to_car exactTable exactObsV3) = false := by
  have h := c2_matcher_exactness
  exact ⟨h.1 (fwVersionsDict exactObsV1) "M" EcuType.engine 0x7e0 none
      [[0x76, 0x31], [0x76, 0x32]] [0x76, 0x31] (by decide) (by decide),
    decide_eq_false (h.2.1 exactTable exactObsV3 "M"
      [((EcuType.engine, 0x7e0, none), [[0x76, 0x31], [0x76, 0x32]])]
      EcuType.engine 0x7e0 none [[0x76, 0x31], [0x76, 0x32]] (by decide)
      (by decide) (by decide) (by decide) (by decide) (by decide))⟩

/-! ### Claim C3 -/

/-- **C3.**  (i) An entry with a non-essential ecuType and no observation
never disqualifies its model.  (ii) A model none of whose entries
disqualify it remains a candidate.  (iii) An entry with an essential
ecuType, no observation, and no allow-list exception excludes the model.
(iv)/(v) The two fixed allow-list exceptions: a missing
stability-control (`esp`) observation is tolerated for RAV4, COROLLA and
HIGHLANDER, and a missing engine observation is tolerated for
COROLLA_TSS2 and CHR. -/
theorem c3_essential_ecu_leniency :
    (∀ (fwd : List ((Addr × SubAddr) × Bytes)) (m : Model) (et : EcuType)
        (a : Addr) (s : SubAddr) (exp : List Bytes),
        et ∉ ESSENTIAL_ECUS → dictGet fwd (a, s) = none →
        entryInvalid fwd m ((et, (a, s)), exp) = false)
    ∧ (∀ (table : FwTable) (obs : List CarFw) (m : Model) (fws : Fingerprint),
        (table.map Prod.fst).Nodup → (m, fws) ∈ table →
        (∀ e ∈ fws, entryInvalid (fwVersionsDict obs) m e = false) →
        m ∈ match_fw_to_car table obs)
    ∧ (∀ (table : FwTable) (obs : List CarFw) (m : Model) (fws : Fingerprint)
        (et : EcuType) (a : Addr) (s : SubAddr) (exp : List Bytes),
        (m, fws) ∈ table → ((et, (a, s)), exp) ∈ fws →
        et ∈ ESSENTIAL_ECUS → dictGet (fwVersionsDict obs) (a, s) = none →
        ¬(et = .esp ∧ m ∈ [TOYOTA_RAV4, TOYOTA_COROLLA, TOYOTA_HIGHLANDER]) →
        ¬(et = .engine ∧ m ∈ [TOYOTA_COROLLA_TSS2, TOYOTA_CHR]) →
        m ∉ match_fw_to_car table obs)
    ∧ (∀ (fwd : List ((Addr × SubAddr) × Bytes)) (m : Model) (a : Addr)
        (s : SubAddr) (exp : List Bytes),
        m ∈ [TOYOTA_RAV4, TOYOTA_COROLLA, TOYOTA_HIGHLANDER] →
        dictGet fwd (a, s) = none →
        entryInvalid fwd m ((EcuType.esp, (a, s)), exp) = false)
    ∧ (∀ (fwd : List ((Addr × SubAddr) × Bytes)) (m : Model) (a : Addr)
        (s : SubAddr) (exp : List Bytes),
        m ∈ [TOYOTA_COROLLA_TSS2, TOYOTA_CHR] →
        dictGet fwd (a, s) = none →
        entryInvalid fwd m ((EcuType.engine, (a, s)), exp) = false) := by
  refine ⟨?_, ?_, ?_, ?_, ?_⟩
  · intro fwd m et a s exp hess hfound
    rw [entryInvalid_eq]
    rw [if_neg (by
      rintro ⟨h1, -, -⟩
      rw [h1] at hess
      exact hess (by decide))]
    rw [if_neg (by
      rintro ⟨h1, -, -⟩
      rw [h1] at hess
      exact hess (by decide))]
    rw [if_pos ⟨hess, hfound⟩]
  · intro table obs m fws hnodup hmem hall
    rw [mem_match_fw_to_car]
    refine ⟨List.mem_map.mpr ⟨(m, fws), hmem, rfl⟩, ?_⟩
    intro hinv
    obtain ⟨fws', hmem', hany⟩ := (mem_invalidModels table _ m).mp hinv
    have heq : fws' = fws := assoc_value_unique hnodup hmem' hmem
    subst heq
    obtain ⟨e, he, htrue⟩ := List.any_eq_true.mp hany
    rw [hall e he] at htrue
    cases htrue
  · intro table obs m fws et a s exp hmem hin hess hfound hA hB hm
    have hinv : entryInvalid (fwVersionsDict obs) m ((et, (a, s)), exp) = true :=
      entryInvalid_essential_missing _ m et a s exp hess hfound hA hB
    have hbad : m ∈ invalidModels table (fwVersionsDict obs) :=
      (mem_invalidModels table _ m).mpr
        ⟨fws, hmem, List.any_eq_true.mpr ⟨_, hin, hinv⟩⟩
    exact ((mem_match_fw_to_car table obs m).mp hm).2 hbad
  · intro fwd m a s exp hm hfound
    rw [entryInvalid_eq, if_pos ⟨rfl, hm, hfound⟩]
  · intro fwd m a s exp hm hfound
    rw [entryInvalid_eq]
    rw [if_neg (by rintro ⟨h1, -, -⟩; cases h1)]
    rw [if_pos ⟨rfl, hm, hfound⟩]

/-- A one-model table whose single entry is an essential ECU (engine). -/
def essentialTable : FwTable :=
  [("E", [((EcuType.engine, 0x7e0, none), [[1]])])]

/-- A one-model table whose single entry is a non-essential ECU (dsu). -/
def nonessentialTable : FwTable :=
  [("N", [((EcuType.dsu, 0x7e0, none), [[1]])])]

/-- Witness for `c3_essential_ecu_leniency` on concrete tables with no
observations. -/
theorem c3_essential_ecu_leniency_witness :
    entryInvalid (fwVersionsDict []) "N"
      ((EcuType.dsu, (0x7e0, none)), [[1]]) = false
    ∧ "N" ∈ match_fw_to_car nonessentialTable []
    ∧ decide ("E" ∈ match_fw_to_car essentialTable []) = false
    ∧ entryInvalid (fwVersionsDict []) TOYOTA_RAV4
      ((EcuType.esp, (0x7e0, none)), [[1]]) = false
    ∧ entryInvalid (fwVersionsDict []) TOYOTA_CHR
      ((EcuType.engine, (0x7e0, none)), [[1]]) = false := by
  have h := c3_essential_ecu_leniency
  refine ⟨h.1 (fwVersionsDict []) "N" EcuType.dsu 0x7e0 none [[1]]
      (by decide) (by decide), ?_, ?_, ?_, ?_⟩
  · exact h.2.1 nonessentialTable [] "N"
      [((EcuType.dsu, 0x7e0, none), [[1]])] (by decide) (by decide)
      (by decide)
  · exact decide_eq_false (h.2.2.1 essentialTable [] "E"
      [((EcuType.engine, 0x7e0, none), [[1]])] EcuType.engine 0x7e0 none
      [[1]] (by decide) (by decide) (by decide) (by decide) (by decide)
      (by decide))
  · exact h.2.2.2.1 (fwVersionsDict []) TOYOTA_RAV4 0x7e0 none [[1]]
      (by decide) (by decide)
  · exact h.2.2.2.2 (fwVersionsDict []) TOYOTA_CHR 0x7e0 none [[1]]
      (by decide) (by decide)

/-! ### Claim C9 -/

/-- **C9.**  The candidate set returned by `match_fw_to_car` only ever
shrinks from the full model set (it is a subset of the table's keys), and
a model with an empty fingerprint is always a member of the result. -/
theorem c9_candidates_subset (table : FwTable) (obs : List CarFw) :
    (∀ m, m ∈ match_fw_to_car table obs → m ∈ table.map Prod.fst)
    ∧ ((table.map Prod.fst).Nodup →
        ∀ m, (m, ([] : Fingerprint)) ∈ table →
        m ∈ match_fw_to_car table obs) := by
  constructor
  · intro m hm
    exact ((mem_match_fw_to_car table obs m).mp hm).1
  · intro hnodup m hm
    rw [mem_match_fw_to_car]
    refine ⟨List.mem_map.mpr ⟨(m, []), hm, rfl⟩, ?_⟩
    intro hinv
    obtain ⟨fws, hmem, hany⟩ := (mem_invalidModels table _ m).mp hinv
    have heq : fws = [] := assoc_value_unique hnodup hmem hm
    subst heq
    cases hany

/-- A one-model table whose fingerprint is empty. -/
def emptyFpTable : FwTable := [("EMPTY", [])]

/-- Witness for `c9_candidates_subset` on a concrete table. -/
theorem c9_candidates_subset_witness :
    "EMPTY" ∈ emptyFpTable.map Prod.fst
    ∧ "EMPTY" ∈ match_fw_to_car emptyFpTable [] := by
  have h := c9_candidates_subset emptyFpTable []
  exact ⟨h.1 "EMPTY" (by decide), h.2 (by decide) "EMPTY" (by decide)⟩

/-! ### Claim C10 -/

/-- **C10.**  The sub-address encoding at the discover/match boundary
conflates `0` with `None`: `get_fw_versions` leaves the `CarFw`
`subAddress` field at its default `0` when the key's sub-address is
`None`, and `match_fw_to_car` decodes a `subAddress` of `0` back to
`None`.  A `None` sub-address and any non-zero sub-address round-trip
exactly; a genuine sub-address of `0` is decoded as if there were no
sub-address. -/
theorem c10_subaddress_roundtrip :
    (∀ (ets : List (List PyVal × EcuType)) (a : Addr) (v : Bytes),
        carFwKey (buildCarFw ets ((a, none), v)) = (a, none))
    ∧ (∀ (ets : List (List PyVal × EcuType)) (a : Addr) (s : Nat) (v : Bytes),
        s ≠ 0 → carFwKey (buildCarFw ets ((a, some s), v)) = (a, some s))
    ∧ (∀ (ets : List (List PyVal × EcuType)) (a : Addr) (v : Bytes),
        carFwKey (buildCarFw ets ((a, some 0), v)) = (a, none)) := by
  refine ⟨?_, ?_, ?_⟩
  · intro ets a v
    simp [carFwKey, buildCarFw]
  · intro ets a s v hs
    simp [carFwKey, buildCarFw, hs]
  · intro ets a v
    simp [carFwKey, buildCarFw]

/-- Witness for `c10_subaddress_roundtrip` at a concrete non-zero
sub-address. -/
theorem c10_subaddress_roundtrip_witness :
    decide ((5 : Nat) = 0) = false
    ∧ carFwKey (buildCarFw [] ((0x750, some 5), [1])) = (0x750, some 5) :=
  ⟨by decide, c10_subaddress_roundtrip.2.1 [] 0x750 5 [1] (by decide)⟩

end FwVersions
